import Mathlib

/-!
# Conversation memory manager: shallow embedding

Shallow embedding of the chat-memory subsystem of the repository
(`src/memory.ts` and the types it uses from `src/types.ts`), together with
proofs of the spec's claims about it.

The TypeScript class `ChatMemoryManager` is modelled as a record of its three
fields; each method becomes a pure function from the record (and the method's
arguments) to the record (for mutators) or to the returned value (for reads).
JS strings are `String`, `string | undefined` is `Option String`, arrays are
`List`, and the numeric `maxTurns` field is a `Nat` (all values the claims
exercise are non-negative integers).
-/

set_option autoImplicit false

namespace ExpoAiKit

/-- `LLMRole` from `src/types.ts`: the closed union `system | user | assistant`. -/
inductive LLMRole where
  | system
  | user
  | assistant
deriving DecidableEq, Repr

/-- `LLMMessage` from `src/types.ts`: a role together with text content. -/
structure LLMMessage where
  role : LLMRole
  content : String
deriving DecidableEq, Repr

/-- `ChatMemoryOptions` from `src/types.ts`: both fields optional. -/
structure ChatMemoryOptions where
  maxTurns : Option Nat
  systemPrompt : Option String
deriving DecidableEq, Repr

/-- `ChatMemorySnapshot` from `src/types.ts`. -/
structure ChatMemorySnapshot where
  messages : List LLMMessage
  systemPrompt : Option String
  turnCount : Nat
  maxTurns : Nat
deriving DecidableEq, Repr

/-- `DEFAULT_MAX_TURNS` from `src/memory.ts`. -/
def DEFAULT_MAX_TURNS : Nat := 10

/-- The `roleLabels` record inside `buildPrompt`: upper-cased role labels. -/
def roleLabels : LLMRole → String
  | .system => "SYSTEM"
  | .user => "USER"
  | .assistant => "ASSISTANT"

/-- JavaScript `Array.prototype.join(sep)`: empty array yields the empty
string, otherwise the elements interleaved with the separator. -/
def joinSep (sep : String) : List String → String
  | [] => ""
  | [line] => line
  | line :: rest => line ++ sep ++ joinSep sep rest

/-- `buildPrompt` from `src/memory.ts`: render each message as
`"<LABEL>: <content>"` and join the lines with a single newline. -/
def buildPrompt (messages : List LLMMessage) : String :=
  if messages.isEmpty then ""
  else joinSep "\n" (messages.map (fun msg => roleLabels msg.role ++ ": " ++ msg.content))

/-- The `ChatMemoryManager` class state: its three private fields. -/
structure ChatMemoryManager where
  messages : List LLMMessage
  systemPrompt : Option String
  maxTurns : Nat
deriving DecidableEq, Repr

/-- The `ChatMemoryManager` constructor: empty history, defaults applied. -/
def mkChatMemoryManager (options : ChatMemoryOptions) : ChatMemoryManager :=
  { messages := []
    systemPrompt := options.systemPrompt
    maxTurns := options.maxTurns.getD DEFAULT_MAX_TURNS }

/-- The `forEach` loop of `trimHistory` that collects, in order, the indices
of the user-role messages, starting the index counter at `idx`. -/
def userIndicesFrom (idx : Nat) : List LLMMessage → List Nat
  | [] => []
  | msg :: rest =>
    if msg.role = LLMRole.user then idx :: userIndicesFrom (idx + 1) rest
    else userIndicesFrom (idx + 1) rest

/-- The `userMessageIndices` array of `trimHistory`: indices (from 0) of the
user-role messages. -/
def userMessageIndices (messages : List LLMMessage) : List Nat :=
  userIndicesFrom 0 messages

/-- `ChatMemoryManager.trimHistory` as a pure function of the `maxTurns`
field and the `messages` array.  Mirrors the source: if the number of user
messages is within the limit it returns unchanged; otherwise it finds the
index of the last user message to remove, advances the cut past the
immediately-following assistant messages (the `while` loop, rendered as
`takeWhile`), and keeps the suffix from the cut onward (`slice(cutIndex)`). -/
def trimHistory (maxTurns : Nat) (messages : List LLMMessage) : List LLMMessage :=
  let idxs := userMessageIndices messages
  if idxs.length ≤ maxTurns then
    messages
  else
    let turnsToRemove := idxs.length - maxTurns
    let lastTurnToRemoveIdx := idxs.getD (turnsToRemove - 1) 0
    let cutIndex := lastTurnToRemoveIdx + 1 +
      ((messages.drop (lastTurnToRemoveIdx + 1)).takeWhile
        (fun msg => decide (msg.role = LLMRole.assistant))).length
    messages.drop cutIndex

/-- Count of user-role messages in a message list (the body of
`getTurnCount`, reused in specifications about raw lists). -/
def userCount (messages : List LLMMessage) : Nat :=
  (messages.filter (fun msg => decide (msg.role = LLMRole.user))).length

/-- `ChatMemoryManager.addUserMessage`: push a user message, then trim. -/
def addUserMessage (m : ChatMemoryManager) (content : String) : ChatMemoryManager :=
  { m with messages :=
      trimHistory m.maxTurns (m.messages ++ [{ role := LLMRole.user, content := content }]) }

/-- `ChatMemoryManager.addAssistantMessage`: push an assistant message, then trim. -/
def addAssistantMessage (m : ChatMemoryManager) (content : String) : ChatMemoryManager :=
  { m with messages :=
      trimHistory m.maxTurns (m.messages ++ [{ role := LLMRole.assistant, content := content }]) }

/-- `ChatMemoryManager.addMessage`: a system message only updates the system
prompt; any other role is pushed onto the history, then trimmed. -/
def addMessage (m : ChatMemoryManager) (message : LLMMessage) : ChatMemoryManager :=
  if message.role = LLMRole.system then
    { m with systemPrompt := some message.content }
  else
    { m with messages := trimHistory m.maxTurns (m.messages ++ [message]) }

/-- `ChatMemoryManager.getAllMessages`: the system prompt (when truthy, i.e.
present and non-empty) followed by the conversation messages. -/
def getAllMessages (m : ChatMemoryManager) : List LLMMessage :=
  (match m.systemPrompt with
   | some sp => if sp = "" then [] else [{ role := LLMRole.system, content := sp }]
   | none => []) ++ m.messages

/-- `ChatMemoryManager.getMessages`: a copy of the conversation messages. -/
def getMessages (m : ChatMemoryManager) : List LLMMessage :=
  m.messages

/-- `ChatMemoryManager.getPrompt`. -/
def getPrompt (m : ChatMemoryManager) : String :=
  buildPrompt (getAllMessages m)

/-- `ChatMemoryManager.getTurnCount`: number of user-role messages stored. -/
def getTurnCount (m : ChatMemoryManager) : Nat :=
  userCount m.messages

/-- `ChatMemoryManager.setSystemPrompt`. -/
def setSystemPrompt (m : ChatMemoryManager) (prompt : Option String) : ChatMemoryManager :=
  { m with systemPrompt := prompt }

/-- `ChatMemoryManager.getSystemPrompt`. -/
def getSystemPrompt (m : ChatMemoryManager) : Option String :=
  m.systemPrompt

/-- `ChatMemoryManager.setMaxTurns`: store the new limit, then trim. -/
def setMaxTurns (m : ChatMemoryManager) (maxTurns : Nat) : ChatMemoryManager :=
  { m with maxTurns := maxTurns, messages := trimHistory maxTurns m.messages }

/-- `ChatMemoryManager.clear`: empty the history, keep the system prompt. -/
def clear (m : ChatMemoryManager) : ChatMemoryManager :=
  { m with messages := [] }

/-- `ChatMemoryManager.reset`: empty the history and drop the system prompt. -/
def reset (m : ChatMemoryManager) : ChatMemoryManager :=
  { m with messages := [], systemPrompt := none }

/-- `ChatMemoryManager.getSnapshot`. -/
def getSnapshot (m : ChatMemoryManager) : ChatMemorySnapshot :=
  { messages := getAllMessages m
    systemPrompt := m.systemPrompt
    turnCount := getTurnCount m
    maxTurns := m.maxTurns }

/-- The two history-mutating calls the bounded-turns invariant quantifies
over. -/
inductive ChatOp where
  | user (content : String)
  | assistant (content : String)
deriving DecidableEq, Repr

/-- Apply one `ChatOp` to a manager state. -/
def applyChatOp (m : ChatMemoryManager) : ChatOp → ChatMemoryManager
  | .user content => addUserMessage m content
  | .assistant content => addAssistantMessage m content

/-- Run a sequence of `ChatOp`s left to right. -/
def runChatOps (m : ChatMemoryManager) (ops : List ChatOp) : ChatMemoryManager :=
  ops.foldl applyChatOp m

/-- The four operations that end in a trim evaluation. -/
inductive TrimOp where
  | user (content : String)
  | assistant (content : String)
  | message (msg : LLMMessage)
  | limit (n : Nat)
deriving DecidableEq, Repr

/-- Apply one trim-evaluating operation. -/
def applyTrimOp (m : ChatMemoryManager) : TrimOp → ChatMemoryManager
  | .user content => addUserMessage m content
  | .assistant content => addAssistantMessage m content
  | .message msg => addMessage m msg
  | .limit n => setMaxTurns m n

/-- The message list a trim-evaluating operation hands to `trimHistory`:
the history with the new message pushed (appends) or the history as is
(limit change). -/
def pushedMessages (m : ChatMemoryManager) : TrimOp → List LLMMessage
  | .user content => m.messages ++ [{ role := LLMRole.user, content := content }]
  | .assistant content => m.messages ++ [{ role := LLMRole.assistant, content := content }]
  | .message msg => m.messages ++ [msg]
  | .limit _ => m.messages

/-- The turn limit in force during a trim-evaluating operation. -/
def effectiveLimit (m : ChatMemoryManager) : TrimOp → Nat
  | .limit n => n
  | _ => m.maxTurns

/-- Splitting a character list on the newline character: first line plus the
remaining lines (the spec's "split on the newline character", over the
character data of a string). -/
def splitLinesAux : List Char → List Char × List (List Char)
  | [] => ([], [])
  | c :: cs =>
    let r := splitLinesAux cs
    if c = '\n' then ([], r.1 :: r.2) else (c :: r.1, r.2)

/-- Split a string on the newline character into its list of lines
(the empty string has exactly one line, the empty line). -/
def splitOnNewline (s : String) : List String :=
  let r := splitLinesAux s.data
  (r.1 :: r.2).map String.mk

/-- Sample store used by witnesses: one user turn and a system prompt. -/
def sampleStore : ChatMemoryManager :=
  { messages := [{ role := LLMRole.user, content := "Hi" }]
    systemPrompt := some "Be brief."
    maxTurns := 10 }

/-- Sample store over its limit used by witnesses: two stored user messages
against a limit of one. -/
def overLimitStore : ChatMemoryManager :=
  { messages := [{ role := LLMRole.user, content := "a" },
                 { role := LLMRole.assistant, content := "b" },
                 { role := LLMRole.user, content := "c" }]
    systemPrompt := none
    maxTurns := 1 }

/-- Sample store within its limit used by witnesses. -/
def singleTurnStore : ChatMemoryManager :=
  { messages := [{ role := LLMRole.user, content := "a" }]
    systemPrompt := none
    maxTurns := 10 }

/-- Sample store with one complete turn used by witnesses. -/
def oneTurnStore : ChatMemoryManager :=
  { messages := [{ role := LLMRole.user, content := "q" },
                 { role := LLMRole.assistant, content := "r" }]
    systemPrompt := none
    maxTurns := 5 }

/-- Helper for `isCompleteTurns`, scanning the tail of a turn sequence:
after the opening user message, every later message must either continue the
current turn (role assistant) or open a new turn (role user). -/
def isTurnContinuation : List LLMMessage → Bool
  | [] => true
  | msg :: rest =>
    (decide (msg.role = LLMRole.assistant) || decide (msg.role = LLMRole.user)) &&
      isTurnContinuation rest

/-- Modelled from the spec: the claim's "contiguous prefix of complete
turns" — a (possibly empty) concatenation of complete turns, one complete
turn being one user message followed by zero or more immediately-subsequent
assistant messages.  Such a concatenation is empty, or begins with a user
message and thereafter every message either continues the current turn or
opens a new one. -/
def isCompleteTurns : List LLMMessage → Bool
  | [] => true
  | msg :: rest => decide (msg.role = LLMRole.user) && isTurnContinuation rest

/-- Reachable store whose history begins with a dangling assistant message:
fresh manager with turn limit 1, then an assistant append and a user append
(neither triggers an eviction). -/
def danglingStore : ChatMemoryManager :=
  runChatOps (mkChatMemoryManager { maxTurns := some 1, systemPrompt := none })
    [ChatOp.assistant "x", ChatOp.user "u1"]

/-- Store whose single user message contains a newline character. -/
def newlineStore : ChatMemoryManager :=
  { messages := [{ role := LLMRole.user, content := "a\nb" }]
    systemPrompt := none
    maxTurns := 10 }

/-- Store with no messages and no directive. -/
def emptyStore : ChatMemoryManager :=
  { messages := []
    systemPrompt := none
    maxTurns := 10 }

/-! ### Lemmas about user indices and the trimming algorithm -/

theorem userCount_nil : userCount [] = 0 := rfl

theorem userCount_cons (msg : LLMMessage) (rest : List LLMMessage) :
    userCount (msg :: rest) =
      (if msg.role = LLMRole.user then 1 else 0) + userCount rest := by
  by_cases h : msg.role = LLMRole.user <;>
    simp [userCount, List.filter_cons, h, Nat.add_comm]

theorem userCount_append (l₁ l₂ : List LLMMessage) :
    userCount (l₁ ++ l₂) = userCount l₁ + userCount l₂ := by
  simp [userCount, List.filter_append]

theorem length_userIndicesFrom (l : List LLMMessage) :
    ∀ i, (userIndicesFrom i l).length = userCount l := by
  induction l with
  | nil => intro i; rfl
  | cons msg rest ih =>
    intro i
    by_cases h : msg.role = LLMRole.user
    · simp [userIndicesFrom, userCount_cons, h, ih]
      omega
    · simp [userIndicesFrom, userCount_cons, h, ih]

theorem length_userMessageIndices (l : List LLMMessage) :
    (userMessageIndices l).length = userCount l :=
  length_userIndicesFrom l 0

/-- Positional characterization of `userIndicesFrom`: if the `k`-th collected
index is `idx`, then `idx` is at least the starting counter, and dropping the
list just past the position `idx` points at leaves exactly `k + 1` fewer
user messages. -/
theorem userCount_drop_userIndicesFrom (l : List LLMMessage) :
    ∀ i k idx, (userIndicesFrom i l).get? k = some idx →
      i ≤ idx ∧ userCount (l.drop (idx + 1 - i)) = userCount l - (k + 1) := by
  induction l with
  | nil => intro i k idx h; simp [userIndicesFrom] at h
  | cons msg rest ih =>
    intro i k idx h
    by_cases hrole : msg.role = LLMRole.user
    · rw [userIndicesFrom, if_pos hrole] at h
      cases k with
      | zero =>
        simp only [List.get?, Option.some.injEq] at h
        constructor
        · omega
        · rw [← h]
          have h1 : i + 1 - i = 1 := by omega
          rw [h1, List.drop_one, List.tail_cons, userCount_cons, if_pos hrole]
          omega
      | succ k =>
        rw [List.get?] at h
        obtain ⟨hle, hcount⟩ := ih (i + 1) k idx h
        refine ⟨by omega, ?_⟩
        have h1 : idx + 1 - i = (idx + 1 - (i + 1)) + 1 := by omega
        rw [h1, List.drop_succ_cons, hcount, userCount_cons, if_pos hrole]
        omega
    · rw [userIndicesFrom, if_neg hrole] at h
      obtain ⟨hle, hcount⟩ := ih (i + 1) k idx h
      refine ⟨by omega, ?_⟩
      have h1 : idx + 1 - i = (idx + 1 - (i + 1)) + 1 := by omega
      rw [h1, List.drop_succ_cons, hcount, userCount_cons, if_neg hrole]
      omega

theorem userCount_drop_userMessageIndices (l : List LLMMessage) (k idx : Nat)
    (h : (userMessageIndices l).get? k = some idx) :
    userCount (l.drop (idx + 1)) = userCount l - (k + 1) := by
  have := (userCount_drop_userIndicesFrom l 0 k idx h).2
  simpa using this

theorem list_getD_of_get? {l : List Nat} {n a : Nat} (d : Nat)
    (h : l.get? n = some a) : l.getD n d = a := by
  rw [List.getD_eq_getElem?_getD, ← List.get?_eq_getElem?, h]
  rfl

theorem drop_length_takeWhile {α : Type} (p : α → Bool) :
    ∀ l : List α, l.drop (l.takeWhile p).length = l.dropWhile p := by
  intro l
  induction l with
  | nil => rfl
  | cons a t ih =>
    by_cases h : p a
    · simp [List.takeWhile_cons, List.dropWhile_cons, h, ih]
    · simp [List.takeWhile_cons, List.dropWhile_cons, h]

theorem userCount_takeWhile_assistant (l : List LLMMessage) :
    userCount (l.takeWhile (fun msg => decide (msg.role = LLMRole.assistant))) = 0 := by
  induction l with
  | nil => rfl
  | cons msg rest ih =>
    by_cases h : msg.role = LLMRole.assistant
    · simp [List.takeWhile_cons, h, userCount_cons, ih]
    · simp [List.takeWhile_cons, h, userCount_nil]

theorem dropWhile_head?_false {α : Type} (p : α → Bool) :
    ∀ (l : List α) (x : α), (l.dropWhile p).head? = some x → p x = false := by
  intro l
  induction l with
  | nil => intro x h; simp [List.dropWhile] at h
  | cons a t ih =>
    intro x h
    by_cases hp : p a
    · rw [List.dropWhile_cons, if_pos hp] at h
      exact ih x h
    · rw [List.dropWhile_cons, if_neg hp] at h
      simp only [List.head?_cons, Option.some.injEq] at h
      rw [← h]
      exact Bool.of_not_eq_true hp

theorem head?_mem {α : Type} {l : List α} {x : α} (h : l.head? = some x) : x ∈ l := by
  cases l with
  | nil => simp at h
  | cons a t =>
    simp only [List.head?_cons, Option.some.injEq] at h
    rw [← h]; exact List.mem_cons_self a t

/-! ### Lemmas about prompt serialization and line splitting -/

theorem string_mk_data (s : String) : String.mk s.data = s := rfl

theorem map_mk_data (l : List String) : l.map (String.mk ∘ String.data) = l := by
  induction l with
  | nil => rfl
  | cons s t ih => simp [Function.comp, string_mk_data, ih]

theorem splitLinesAux_append {l r : List Char} (h : ∀ c ∈ l, ¬ c = '\n') :
    splitLinesAux (l ++ r) = (l ++ (splitLinesAux r).1, (splitLinesAux r).2) := by
  induction l with
  | nil => simp
  | cons c cs ih =>
    have hc : ¬ c = '\n' := h c (List.mem_cons_self c cs)
    have hcs : ∀ x ∈ cs, ¬ x = '\n' := fun x hx => h x (List.mem_cons_of_mem c hx)
    simp [splitLinesAux, hc, ih hcs]

/-- A newline-free character list splits into the single line it is. -/
theorem splitLinesAux_no_newline {l : List Char} (h : ∀ c ∈ l, ¬ c = '\n') :
    splitLinesAux l = (l, []) := by
  have := splitLinesAux_append (r := []) h
  simpa [splitLinesAux] using this

/-- Splitting the newline-join of newline-free lines recovers the lines
(character-level statement). -/
theorem splitLinesAux_joinSep (rest : List String) :
    ∀ a : String, (∀ line ∈ a :: rest, ∀ c ∈ line.data, ¬ c = '\n') →
      splitLinesAux (joinSep "\n" (a :: rest)).data =
        (a.data, rest.map String.data) := by
  induction rest with
  | nil =>
    intro a h
    rw [joinSep]
    exact splitLinesAux_no_newline (h a (List.mem_cons_self a []))
  | cons b rest ih =>
    intro a h
    have ha : ∀ c ∈ a.data, ¬ c = '\n' := h a (List.mem_cons_self a (b :: rest))
    have hrest : ∀ line ∈ b :: rest, ∀ c ∈ line.data, ¬ c = '\n' :=
      fun line hl => h line (List.mem_cons_of_mem a hl)
    have hjoin : (joinSep "\n" (a :: b :: rest)) = a ++ "\n" ++ joinSep "\n" (b :: rest) := rfl
    rw [hjoin]
    have hdata : (a ++ "\n" ++ joinSep "\n" (b :: rest)).data =
        a.data ++ ('\n' :: (joinSep "\n" (b :: rest)).data) := by
      simp [String.data_append]
    rw [hdata, splitLinesAux_append ha]
    have hnl : splitLinesAux ('\n' :: (joinSep "\n" (b :: rest)).data) =
        ([], (splitLinesAux ((joinSep "\n" (b :: rest)).data)).1 ::
          (splitLinesAux ((joinSep "\n" (b :: rest)).data)).2) := by
      simp [splitLinesAux]
    rw [hnl, ih b hrest]
    simp

/-- Splitting the newline-join of newline-free lines recovers the lines. -/
theorem splitOnNewline_joinSep {lines : List String} (hne : lines ≠ [])
    (h : ∀ line ∈ lines, ∀ c ∈ line.data, ¬ c = '\n') :
    splitOnNewline (joinSep "\n" lines) = lines := by
  cases lines with
  | nil => exact absurd rfl hne
  | cons a rest =>
    rw [splitOnNewline]
    simp only [splitLinesAux_joinSep rest a h]
    simp only [List.map_cons, List.map_map, string_mk_data, map_mk_data]

/-- Each rendered prompt line is newline-free when the content is. -/
theorem renderLine_no_newline (msg : LLMMessage)
    (h : ∀ c ∈ msg.content.data, ¬ c = '\n') :
    ∀ c ∈ (roleLabels msg.role ++ ": " ++ msg.content).data, ¬ c = '\n' := by
  intro c hc
  simp only [String.data_append, List.mem_append] at hc
  rcases hc with hc | hc
  · rcases hc with hc | hc
    · have hlabel : ∀ x ∈ (roleLabels msg.role).data, ¬ x = '\n' := by
        cases msg.role
        · decide
        · decide
        · decide
      exact hlabel c hc
    · have hcolon : ∀ x ∈ (": " : String).data, ¬ x = '\n' := by decide
      exact hcolon c hc
  · exact h c hc

/-- When the history is within the limit, `trimHistory` returns it unchanged. -/
theorem trimHistory_of_le {maxTurns : Nat} {messages : List LLMMessage}
    (h : userCount messages ≤ maxTurns) :
    trimHistory maxTurns messages = messages := by
  rw [trimHistory, if_pos]
  rw [length_userMessageIndices]
  exact h

/-- When the history exceeds the limit, `trimHistory` drops everything up to
and including the excess-th oldest user message plus the assistant messages
immediately following it. -/
theorem trimHistory_eq_of_lt {maxTurns : Nat} {messages : List LLMMessage}
    (h : maxTurns < userCount messages) :
    ∃ idx, (userMessageIndices messages).get? (userCount messages - maxTurns - 1) = some idx ∧
      trimHistory maxTurns messages =
        (messages.drop (idx + 1)).dropWhile (fun msg => decide (msg.role = LLMRole.assistant)) := by
  have hlen : (userMessageIndices messages).length = userCount messages :=
    length_userMessageIndices messages
  have hnle : ¬ (userMessageIndices messages).length ≤ maxTurns := by omega
  have hk : userCount messages - maxTurns - 1 < (userMessageIndices messages).length := by
    omega
  obtain ⟨idx, hidx⟩ : ∃ idx,
      (userMessageIndices messages).get? (userCount messages - maxTurns - 1) = some idx := by
    cases hget : (userMessageIndices messages).get? (userCount messages - maxTurns - 1) with
    | none => rw [List.get?_eq_none] at hget; omega
    | some a => exact ⟨a, rfl⟩
  refine ⟨idx, hidx, ?_⟩
  rw [trimHistory]
  simp only [hnle, if_false]
  have harg : (userMessageIndices messages).length - maxTurns - 1 =
      userCount messages - maxTurns - 1 := by omega
  rw [harg, list_getD_of_get? 0 hidx]
  have hdd : ∀ twLen : Nat, messages.drop (idx + 1 + twLen) =
      (messages.drop (idx + 1)).drop twLen := by
    intro twLen
    rw [List.drop_drop]
  rw [hdd, drop_length_takeWhile]

/-- Core counting lemma: trimming leaves exactly `min (userCount) maxTurns`
user messages. -/
theorem userCount_trimHistory (maxTurns : Nat) (messages : List LLMMessage) :
    userCount (trimHistory maxTurns messages) = min (userCount messages) maxTurns := by
  by_cases h : userCount messages ≤ maxTurns
  · rw [trimHistory_of_le h, Nat.min_eq_left h]
  · have hlt : maxTurns < userCount messages := by omega
    obtain ⟨idx, hidx, heq⟩ := trimHistory_eq_of_lt hlt
    have hdrop : userCount (messages.drop (idx + 1)) =
        userCount messages - (userCount messages - maxTurns - 1 + 1) :=
      userCount_drop_userMessageIndices messages _ idx hidx
    have hsplit : userCount ((messages.drop (idx + 1)).dropWhile
        (fun msg => decide (msg.role = LLMRole.assistant))) =
        userCount (messages.drop (idx + 1)) := by
      have happ := userCount_append
        ((messages.drop (idx + 1)).takeWhile (fun msg => decide (msg.role = LLMRole.assistant)))
        ((messages.drop (idx + 1)).dropWhile (fun msg => decide (msg.role = LLMRole.assistant)))
      rw [List.takeWhile_append_dropWhile] at happ
      rw [happ, userCount_takeWhile_assistant]
      omega
    rw [heq, hsplit, hdrop, Nat.min_eq_right (by omega)]
    omega

/-- `trimHistory` always returns a suffix of its input: it only ever removes
a contiguous prefix. -/
theorem trimHistory_drop (maxTurns : Nat) (messages : List LLMMessage) :
    ∃ n, trimHistory maxTurns messages = messages.drop n := by
  rw [trimHistory]
  by_cases h : (userMessageIndices messages).length ≤ maxTurns
  · rw [if_pos h]
    exact ⟨0, (List.drop_zero messages).symm⟩
  · rw [if_neg h]
    exact ⟨_, rfl⟩

/-- A list without system-role messages is a valid turn-sequence tail:
every element either continues a turn or opens a new one. -/
theorem isTurnContinuation_of_no_system {l : List LLMMessage}
    (h : ∀ msg ∈ l, ¬ msg.role = LLMRole.system) : isTurnContinuation l = true := by
  induction l with
  | nil => rfl
  | cons msg rest ih =>
    rw [isTurnContinuation]
    rw [ih (fun x hx => h x (List.mem_cons_of_mem _ hx)), Bool.and_true]
    have hmsg : ¬ msg.role = LLMRole.system := h msg (List.mem_cons_self _ _)
    cases hr : msg.role
    · exact absurd hr hmsg
    · simp [hr]
    · simp [hr]

/-- Any `take`-prefix of a system-free list that starts with a user message
is a concatenation of complete turns. -/
theorem isCompleteTurns_take {l : List LLMMessage} (n : Nat)
    (hns : ∀ msg ∈ l, ¬ msg.role = LLMRole.system)
    (hhead : l.head?.map LLMMessage.role = some LLMRole.user) :
    isCompleteTurns (l.take n) = true := by
  cases htake : l.take n with
  | nil => rfl
  | cons y ys =>
    have hy : l.head? = some y := by
      cases hp : l with
      | nil => rw [hp] at htake; simp at htake
      | cons z zs =>
        cases n with
        | zero => simp at htake
        | succ k =>
          rw [hp, List.take_succ_cons] at htake
          simp only [List.cons.injEq] at htake
          rw [List.head?_cons, htake.1]
    have hyu : y.role = LLMRole.user := by
      rw [hy] at hhead
      simpa using hhead
    rw [isCompleteTurns, hyu]
    simp only [decide_True, Bool.true_and]
    apply isTurnContinuation_of_no_system
    intro msg hmsg
    apply hns
    apply List.take_subset n
    rw [htake]
    exact List.mem_cons_of_mem _ hmsg

/-- A single user or assistant append leaves at most `maxTurns` user messages. -/
theorem getTurnCount_applyChatOp_le (m : ChatMemoryManager) (op : ChatOp) :
    getTurnCount (applyChatOp m op) ≤ m.maxTurns := by
  cases op with
  | user c =>
    show userCount (trimHistory m.maxTurns _) ≤ m.maxTurns
    rw [userCount_trimHistory]
    exact Nat.min_le_right _ _
  | assistant c =>
    show userCount (trimHistory m.maxTurns _) ≤ m.maxTurns
    rw [userCount_trimHistory]
    exact Nat.min_le_right _ _

theorem maxTurns_applyChatOp (m : ChatMemoryManager) (op : ChatOp) :
    (applyChatOp m op).maxTurns = m.maxTurns := by
  cases op <;> rfl

/-- Running any sequence of appends preserves the bounded-turn-count property. -/
theorem getTurnCount_runChatOps_le (ops : List ChatOp) :
    ∀ m : ChatMemoryManager, getTurnCount m ≤ m.maxTurns →
      getTurnCount (runChatOps m ops) ≤ m.maxTurns := by
  induction ops with
  | nil => intro m h; exact h
  | cons op ops ih =>
    intro m h
    have hstep : getTurnCount (runChatOps (applyChatOp m op) ops) ≤ (applyChatOp m op).maxTurns :=
      ih (applyChatOp m op)
        (by rw [maxTurns_applyChatOp]; exact getTurnCount_applyChatOp_le m op)
    rw [maxTurns_applyChatOp] at hstep
    exact hstep

/-- C1: bounded turns invariant — a manager constructed with a positive turn
limit keeps `getTurnCount` at most that limit after every finite sequence of
`addUserMessage`/`addAssistantMessage` calls. -/
theorem C1_bounded_turns (L : Nat) (_hpos : 0 < L) (sys : Option String) (ops : List ChatOp) :
    getTurnCount (runChatOps (mkChatMemoryManager
      { maxTurns := some L, systemPrompt := sys }) ops) ≤ L := by
  have h0 : getTurnCount (mkChatMemoryManager { maxTurns := some L, systemPrompt := sys }) ≤
      (mkChatMemoryManager { maxTurns := some L, systemPrompt := sys }).maxTurns :=
    Nat.zero_le _
  exact getTurnCount_runChatOps_le ops _ h0

/-- Witness for C1: limit 2, the Scenario A call sequence. -/
theorem C1_bounded_turns_witness :
    getTurnCount (runChatOps (mkChatMemoryManager { maxTurns := some 2, systemPrompt := none })
      [ChatOp.user "Hi", ChatOp.assistant "Hello", ChatOp.user "How are you?",
       ChatOp.assistant "Fine", ChatOp.user "Bye"]) ≤ 2 :=
  C1_bounded_turns 2 (by decide) none _

/-- C2: Scenario A trace — limit 2, no directive; after the five appends the
history is exactly the last two turns and the turn count is 2. -/
theorem C2_scenario_A :
    (runChatOps (mkChatMemoryManager { maxTurns := some 2, systemPrompt := none })
      [ChatOp.user "Hi", ChatOp.assistant "Hello", ChatOp.user "How are you?",
       ChatOp.assistant "Fine", ChatOp.user "Bye"]).messages =
        [{ role := LLMRole.user, content := "How are you?" },
         { role := LLMRole.assistant, content := "Fine" },
         { role := LLMRole.user, content := "Bye" }] ∧
    getTurnCount (runChatOps (mkChatMemoryManager { maxTurns := some 2, systemPrompt := none })
      [ChatOp.user "Hi", ChatOp.assistant "Hello", ChatOp.user "How are you?",
       ChatOp.assistant "Fine", ChatOp.user "Bye"]) = 2 := by
  decide

/-- C5: system isolation — `addMessage` with a system message never changes
the turn count or the stored turns, and sets the system prompt to the given
text. -/
theorem C5_system_isolation (m : ChatMemoryManager) (X : String) :
    getTurnCount (addMessage m { role := LLMRole.system, content := X }) = getTurnCount m ∧
    (addMessage m { role := LLMRole.system, content := X }).messages = m.messages ∧
    getSystemPrompt (addMessage m { role := LLMRole.system, content := X }) = some X := by
  refine ⟨?_, ?_, ?_⟩ <;> simp [addMessage, getTurnCount, getSystemPrompt]

/-- C7: lowering the limit trims immediately — with exactly two complete
turns stored, `setMaxTurns 1` leaves exactly the most recent complete turn. -/
theorem C7_lower_limit_trims (s : Option String) (L : Nat) (c₁ r₁ c₂ r₂ : String) :
    (setMaxTurns
      { messages := [{ role := LLMRole.user, content := c₁ },
                     { role := LLMRole.assistant, content := r₁ },
                     { role := LLMRole.user, content := c₂ },
                     { role := LLMRole.assistant, content := r₂ }]
        systemPrompt := s
        maxTurns := L } 1).messages =
      [{ role := LLMRole.user, content := c₂ }, { role := LLMRole.assistant, content := r₂ }] := by
  simp [setMaxTurns, trimHistory, userMessageIndices, userIndicesFrom, List.getD]

/-- C8: frame effect of clear — the turns are emptied and the system prompt
is untouched. -/
theorem C8_clear_frame (m : ChatMemoryManager) :
    getMessages (clear m) = [] ∧
    (clear m).messages = [] ∧
    getSystemPrompt (clear m) = getSystemPrompt m :=
  ⟨rfl, rfl, rfl⟩

/-- C9: assistant appends never evict — when the turn count is within the
limit, `addAssistantMessage` appends exactly one assistant message and
removes nothing. -/
theorem C9_assistant_no_evict (m : ChatMemoryManager) (c : String)
    (h : getTurnCount m ≤ m.maxTurns) :
    (addAssistantMessage m c).messages =
      m.messages ++ [{ role := LLMRole.assistant, content := c }] := by
  show trimHistory m.maxTurns (m.messages ++ [{ role := LLMRole.assistant, content := c }]) = _
  apply trimHistory_of_le
  rw [userCount_append]
  have hz : userCount [{ role := LLMRole.assistant, content := c }] = 0 := rfl
  rw [hz]
  simpa [getTurnCount] using h

/-- Witness for C9 on a store holding one user turn under a limit of 10. -/
theorem C9_assistant_no_evict_witness :
    (addAssistantMessage singleTurnStore "b").messages =
      singleTurnStore.messages ++ [{ role := LLMRole.assistant, content := "b" }] :=
  C9_assistant_no_evict singleTurnStore "b" (by decide)

/-- C10: zero-limit policy — on a store whose turns contain a user message
(and, as in every reachable state, no system message), `setMaxTurns 0`
leaves the turns empty. -/
theorem C10_zero_limit_evicts_all (m : ChatMemoryManager)
    (hns : ∀ msg ∈ m.messages, ¬ msg.role = LLMRole.system)
    (hu : 0 < getTurnCount m) :
    (setMaxTurns m 0).messages = [] := by
  have hlt : (0 : Nat) < userCount m.messages := hu
  obtain ⟨idx, hidx, heq⟩ := trimHistory_eq_of_lt hlt
  show trimHistory 0 m.messages = []
  rw [heq]
  have hcount : userCount (m.messages.drop (idx + 1)) = 0 := by
    have hpos := userCount_drop_userMessageIndices m.messages _ idx hidx
    omega
  rw [List.dropWhile_eq_nil_iff]
  intro x hx
  have hx_m : x ∈ m.messages := List.drop_subset _ _ hx
  have hx_sys : ¬ x.role = LLMRole.system := hns x hx_m
  have hx_user : ¬ x.role = LLMRole.user := by
    intro hxu
    have hmem : x ∈ (m.messages.drop (idx + 1)).filter
        (fun msg => decide (msg.role = LLMRole.user)) :=
      List.mem_filter.mpr ⟨hx, by simp [hxu]⟩
    have : 0 < userCount (m.messages.drop (idx + 1)) :=
      List.length_pos.mpr (List.ne_nil_of_mem hmem)
    omega
  cases hxr : x.role
  · exact absurd hxr hx_sys
  · exact absurd hxr hx_user
  · simp [hxr]

/-- Witness for C10 on a store holding one complete turn. -/
theorem C10_zero_limit_evicts_all_witness :
    (setMaxTurns oneTurnStore 0).messages = [] :=
  C10_zero_limit_evicts_all oneTurnStore (by decide) (by decide)

/-- Counterexample to C3 as stated: a message whose content contains the
newline character splits into more lines than there are messages, and on an
empty store the split of the empty prompt has one line, not zero. -/
theorem C3_counterexample :
    (splitOnNewline (getPrompt newlineStore)).length ≠ (getAllMessages newlineStore).length ∧
    (splitOnNewline (getPrompt emptyStore)).length ≠ (getAllMessages emptyStore).length := by
  decide

/-- C3 (amended): serialization law for newline-free contents — when every
materialized message content is newline-free, an empty `getAllMessages`
yields the empty prompt, and otherwise splitting the prompt on the newline
character yields exactly the rendered `"<LABEL>: <content>"` line of each
message, in order. -/
theorem C3_serialization_law (m : ChatMemoryManager)
    (h : ∀ msg ∈ getAllMessages m, ∀ c ∈ msg.content.data, ¬ c = '\n') :
    (getAllMessages m = [] → getPrompt m = "") ∧
    (getAllMessages m ≠ [] →
      splitOnNewline (getPrompt m) =
        (getAllMessages m).map (fun msg => roleLabels msg.role ++ ": " ++ msg.content)) := by
  constructor
  · intro he
    rw [getPrompt, buildPrompt, if_pos (by simp [he])]
  · intro hne
    rw [getPrompt, buildPrompt, if_neg (by simp [List.isEmpty_iff, hne])]
    refine splitOnNewline_joinSep ?_ ?_
    · simp [hne]
    · intro line hl
      obtain ⟨msg, hmsg, rfl⟩ := List.mem_map.mp hl
      exact renderLine_no_newline msg (h msg hmsg)

/-- Witness for C3 (amended) on a store with a directive and one user turn. -/
theorem C3_serialization_law_witness :
    splitOnNewline (getPrompt sampleStore) =
      (getAllMessages sampleStore).map
        (fun msg => roleLabels msg.role ++ ": " ++ msg.content) :=
  (C3_serialization_law sampleStore (by decide)).2 (by decide)

/-- Counterexample to C4 as stated, in both of its conjuncts.  First,
`addAssistantMessage` on a fresh store triggers trim evaluation yet leaves a
non-empty history whose first message has role assistant, not user.  Second,
from the reachable store `danglingStore` (history `[assistant "x",
user "u1"]`, limit 1), the call `addUserMessage "u2"` evicts — the result is
the pushed list with its first two messages removed — and the evicted
prefix, `[assistant "x", user "u1"]`, is not a concatenation of complete
turns: eviction removed a dangling assistant message together with a user
message rather than a user message plus its following assistants. -/
theorem C4_counterexample :
    ((addAssistantMessage (mkChatMemoryManager { maxTurns := none, systemPrompt := none })
      "x").messages ≠ [] ∧
     (addAssistantMessage (mkChatMemoryManager { maxTurns := none, systemPrompt := none })
      "x").messages.head?.map LLMMessage.role ≠ some LLMRole.user) ∧
    danglingStore.messages = [{ role := LLMRole.assistant, content := "x" },
      { role := LLMRole.user, content := "u1" }] ∧
    (addUserMessage danglingStore "u2").messages ≠
      pushedMessages danglingStore (TrimOp.user "u2") ∧
    (addUserMessage danglingStore "u2").messages =
      (pushedMessages danglingStore (TrimOp.user "u2")).drop 2 ∧
    (pushedMessages danglingStore (TrimOp.user "u2")).take 2 =
      [{ role := LLMRole.assistant, content := "x" },
       { role := LLMRole.user, content := "u1" }] ∧
    isCompleteTurns ((pushedMessages danglingStore (TrimOp.user "u2")).take 2) = false := by
  decide

/-- C4 (amended): whenever one of the four trim-evaluating operations
actually evicts messages (the resulting history differs from the pushed
list), the resulting history is empty or starts with a user-role message,
and the result is a suffix of the pushed list (a contiguous prefix was
removed, the retained suffix keeps its original order); moreover, whenever
the pushed history begins with a user-role message, the evicted prefix is a
concatenation of complete turns.  The no-system-message hypothesis holds in
every reachable state.  When the pushed history instead begins with a
dangling assistant message, the evicted prefix is not a concatenation of
complete turns, as the counterexample trace shows. -/
theorem C4_no_dangling_assistant (m : ChatMemoryManager) (op : TrimOp)
    (hns : ∀ msg ∈ pushedMessages m op, ¬ msg.role = LLMRole.system)
    (hev : (applyTrimOp m op).messages ≠ pushedMessages m op) :
    ((applyTrimOp m op).messages = [] ∨
      (applyTrimOp m op).messages.head?.map LLMMessage.role = some LLMRole.user) ∧
    ∃ n, (applyTrimOp m op).messages = (pushedMessages m op).drop n ∧
      ((pushedMessages m op).head?.map LLMMessage.role = some LLMRole.user →
        isCompleteTurns ((pushedMessages m op).take n) = true) := by
  have hL : (applyTrimOp m op).messages =
      trimHistory (effectiveLimit m op) (pushedMessages m op) := by
    cases op with
    | user c => rfl
    | assistant c => rfl
    | message msg =>
      have hmem : msg ∈ pushedMessages m (TrimOp.message msg) :=
        List.mem_append_right _ (List.mem_singleton.mpr rfl)
      have hrole : ¬ msg.role = LLMRole.system := hns msg hmem
      simp [applyTrimOp, addMessage, hrole, pushedMessages, effectiveLimit]
    | limit n => rfl
  have hlt : effectiveLimit m op < userCount (pushedMessages m op) := by
    by_contra hle
    push_neg at hle
    exact hev (hL.trans (trimHistory_of_le hle))
  obtain ⟨idx, hidx, heq⟩ := trimHistory_eq_of_lt hlt
  obtain ⟨n, hdrop⟩ := trimHistory_drop (effectiveLimit m op) (pushedMessages m op)
  refine ⟨?_, n, hL.trans hdrop, fun hhead => isCompleteTurns_take n hns hhead⟩
  cases hh : (applyTrimOp m op).messages.head? with
  | none =>
    left
    exact List.head?_eq_none_iff.mp hh
  | some x =>
    right
    have hx_mem : x ∈ (applyTrimOp m op).messages := head?_mem hh
    rw [hL, hdrop] at hx_mem
    have hx_pushed : x ∈ pushedMessages m op := List.drop_subset _ _ hx_mem
    have hsome : (((pushedMessages m op).drop (idx + 1)).dropWhile
        (fun msg => decide (msg.role = LLMRole.assistant))).head? = some x := by
      rw [← heq, ← hL]
      exact hh
    have hfalse := dropWhile_head?_false _ _ x hsome
    have hx_assistant : ¬ x.role = LLMRole.assistant := by simpa using hfalse
    have hx_sys : ¬ x.role = LLMRole.system := hns x hx_pushed
    have hx_user : x.role = LLMRole.user := by
      cases hxr : x.role
      · exact absurd hxr hx_sys
      · rfl
      · exact absurd hxr hx_assistant
    simp [hx_user]

/-- Witness for C4 (amended): a user append on a store already at its limit
evicts, leaves the history starting with a user message, and — the pushed
history starting with a user message — removed a prefix of complete turns. -/
theorem C4_no_dangling_assistant_witness :
    ((applyTrimOp overLimitStore (TrimOp.user "d")).messages = [] ∨
      (applyTrimOp overLimitStore (TrimOp.user "d")).messages.head?.map LLMMessage.role =
        some LLMRole.user) ∧
    ∃ n, (applyTrimOp overLimitStore (TrimOp.user "d")).messages =
        (pushedMessages overLimitStore (TrimOp.user "d")).drop n ∧
      ((pushedMessages overLimitStore (TrimOp.user "d")).head?.map LLMMessage.role =
          some LLMRole.user →
        isCompleteTurns ((pushedMessages overLimitStore (TrimOp.user "d")).take n) = true) :=
  C4_no_dangling_assistant overLimitStore (TrimOp.user "d") (by decide) (by decide)

/-- Counterexample to C6 as stated: setting the system prompt to the empty
string leaves `getSystemPrompt` returning the empty string, not the absent
value — the getter does not report the directive as absent. -/
theorem C6_counterexample :
    ¬ getSystemPrompt (setSystemPrompt sampleStore (some "")) = none := by
  decide

/-- C6 (amended): `setSystemPrompt` overwrites the directive verbatim and
never touches the turns; after clearing with the absent value the getter
reports no directive, and after either the absent value or the empty string
`getAllMessages` contains no system entry. -/
theorem C6_clear_directive (m : ChatMemoryManager) (v : Option String) :
    (setSystemPrompt m v).messages = m.messages ∧
    getSystemPrompt (setSystemPrompt m v) = v ∧
    ((v = none ∨ v = some "") → getAllMessages (setSystemPrompt m v) = m.messages) := by
  refine ⟨rfl, rfl, ?_⟩
  intro hv
  rcases hv with hv | hv <;> subst hv <;> simp [getAllMessages, setSystemPrompt]

/-- Witness for C6 (amended) at the empty-string value. -/
theorem C6_clear_directive_witness :
    getAllMessages (setSystemPrompt sampleStore (some "")) = sampleStore.messages :=
  (C6_clear_directive sampleStore (some "")).2.2 (Or.inr rfl)

end ExpoAiKit
